import Mathlib

/-!
Verification of the scylla repair/snitch subsystem spec against a shallow
embedding of the source.  The locator (snitch) code and the property-file
parser are embedded from their full source bodies; repair-service members
whose bodies are absent from the source tree (only declared in
repair/row_level.hh) are modelled from the spec, and are marked as such in
their doc comments.
-/

namespace ScyllaSpec

/-- Endpoint (inet) addresses, abstracted as naturals. -/
abbrev InetAddress := Nat

/-- The gossip application-state keys consulted by the snitch
(gms::application_state::RACK / DC). -/
inductive AppState where
  | RACK
  | DC
deriving DecidableEq

/-- A row of the system table's DC/rack info
(db::system_keyspace::load_dc_rack_info). -/
structure DcRackInfo where
  dc : String
  rack : String
deriving DecidableEq

/-- The external collaborators and configuration the snitch base reads:
gossip endpoint state, the saved system-table DC/rack info, the public
address resolver of the messaging service, the node's own broadcast
address, the locally configured DC/rack, and the class default constants
(whose values live in a header outside the embedded sources, so they are
kept abstract here). -/
structure SnitchEnv where
  gossip : InetAddress → AppState → Option String
  saved : InetAddress → Option DcRackInfo
  resolve : InetAddress → InetAddress
  broadcast : InetAddress
  my_dc : String
  my_rack : String
  default_dc : String
  default_rack : String

/-- Embedding of production_snitch_base::get_endpoint_info(endpoint, key,
default_val): gossip first, then the saved system-table info, then retry
under the resolved public alias when it differs from the queried address,
else the default.  The C++ recursion has no depth guard; the embedding is
fuelled, with fuel exhaustion (result none) marking a recursion that has
exceeded the given resolution-depth bound. -/
def get_endpoint_info (env : SnitchEnv) (key : AppState) (default_val : String) :
    Nat → InetAddress → Option String
  | 0, _ => none
  | fuel + 1, endpoint =>
    match env.gossip endpoint key with
    | some v => some v
    | none =>
      match env.saved endpoint with
      | some info =>
        match key with
        | .RACK => some info.rack
        | .DC => some info.dc
      | none =>
        let resolved := env.resolve endpoint
        if resolved ≠ endpoint then
          get_endpoint_info env key default_val fuel resolved
        else
          some default_val

/-- Embedding of production_snitch_base::get_rack: the node's own broadcast
address short-circuits to the configured rack, everything else goes through
the fallback lookup with default_rack. -/
def get_rack (env : SnitchEnv) (fuel : Nat) (endpoint : InetAddress) : Option String :=
  if endpoint = env.broadcast then some env.my_rack
  else get_endpoint_info env .RACK env.default_rack fuel endpoint

/-- Embedding of production_snitch_base::get_datacenter, symmetric to
get_rack. -/
def get_datacenter (env : SnitchEnv) (fuel : Nat) (endpoint : InetAddress) : Option String :=
  if endpoint = env.broadcast then some env.my_dc
  else get_endpoint_info env .DC env.default_dc fuel endpoint

/-- The alias-resolution chain of get_endpoint_info terminates from an
endpoint: the lookup is settled at the endpoint itself (gossip hit, saved
system-table hit, or the resolver returns the endpoint unchanged so the
default is produced), or the resolver moves to a different endpoint from
which the chain terminates. -/
inductive ResolutionTerminates (env : SnitchEnv) (key : AppState) : InetAddress → Prop where
  | gossip (ep : InetAddress) (v : String) (h : env.gossip ep key = some v) :
      ResolutionTerminates env key ep
  | saved (ep : InetAddress) (info : DcRackInfo) (hg : env.gossip ep key = none)
      (hs : env.saved ep = some info) : ResolutionTerminates env key ep
  | fixed (ep : InetAddress) (hg : env.gossip ep key = none) (hs : env.saved ep = none)
      (hr : env.resolve ep = ep) : ResolutionTerminates env key ep
  | step (ep : InetAddress) (hg : env.gossip ep key = none) (hs : env.saved ep = none)
      (hr : env.resolve ep ≠ ep) (ih : ResolutionTerminates env key (env.resolve ep)) :
      ResolutionTerminates env key ep

/-- A concrete environment whose public-address resolver carries a 2-cycle
between endpoints 0 and 1, neither of which is known to gossip or the saved
system-table info. -/
def cycleEnv : SnitchEnv where
  gossip := fun _ _ => none
  saved := fun _ => none
  resolve := fun ep => if ep = 0 then 1 else if ep = 1 then 0 else ep
  broadcast := 100
  my_dc := "mydc"
  my_rack := "myrack"
  default_dc := "UNKNOWN_DC"
  default_rack := "UNKNOWN_RACK"

/-- The node-local transport/persistence state touched by
reconnectable_snitch_helper::reconnect: the system table's preferred-IP
entries, each shard's messaging-service preferred-IP cache, and each
shard's set of open RPC connections (true = an open client exists for the
address).  nshards fixes the shard count of the fan-out. -/
structure NodeState where
  nshards : Nat
  systemTable : InetAddress → Option InetAddress
  cache : Nat → InetAddress → Option InetAddress
  rpcOpen : Nat → InetAddress → Bool

/-- messaging_service::get_preferred_ip on a given shard: the cached
preferred IP if present, otherwise the queried address itself. -/
def get_preferred_ip (st : NodeState) (shard : Nat) (ep : InetAddress) : InetAddress :=
  (st.cache shard ep).getD ep

/-- The environment reconnect consults: the snitch's datacenter map (a
black box here) and the helper's configured local DC. -/
structure ReconnectEnv where
  dcOf : InetAddress → String
  local_dc : String

/-- The observable side effects of reconnect, in program order: the system
table write co_awaited first, then the per-shard cache update plus RPC
client removal executed by the invoke_on_all fan-out. -/
inductive ReconnectAction where
  | persistPreferredIp (public_addr local_addr : InetAddress)
  | updateShard (shard : Nat) (public_addr local_addr : InetAddress)
deriving DecidableEq

/-- The combined state change of reconnect's effectful branch: the system
table write for the public address, and the invoke_on_all fan-out that on
every shard caches the preferred IP and removes the RPC client for it. -/
def applyPreferredIpUpdate (st : NodeState) (public_addr local_addr : InetAddress) : NodeState :=
  { st with
      systemTable := fun a => if a = public_addr then some local_addr else st.systemTable a
      cache := fun s a => if a = public_addr then some local_addr else st.cache s a
      rpcOpen := fun s a => if a = public_addr then false else st.rpcOpen s a }

/-- Embedding of reconnectable_snitch_helper::reconnect(public_address,
local_address): when the peer is in the local DC and the calling shard's
cached preferred IP differs from the new local address, it persists the
mapping to the system table, then on every shard caches the preferred IP
and drops the open RPC client for the public address; otherwise it does
nothing.  Returns the new state and the ordered trace of effects. -/
def reconnect (env : ReconnectEnv) (callingShard : Nat) (st : NodeState)
    (public_addr local_addr : InetAddress) : NodeState × List ReconnectAction :=
  if env.dcOf public_addr = env.local_dc ∧ get_preferred_ip st callingShard public_addr ≠ local_addr then
    (applyPreferredIpUpdate st public_addr local_addr,
      ReconnectAction.persistPreferredIp public_addr local_addr ::
        (List.range st.nshards).map (fun s => ReconnectAction.updateShard s public_addr local_addr))
  else
    (st, [])

/-- The classical-locale isspace predicate used by boost's trim: space,
tab, newline, vertical tab, form feed, carriage return. -/
def cIsSpace (c : Char) : Bool :=
  c = ' ' || c = '\t' || c = '\n' || c = '\x0b' || c = '\x0c' || c = '\r'

/-- boost::algorithm::trim on a line, as a char list: drop leading and
trailing whitespace. -/
def trimChars (s : List Char) : List Char :=
  ((s.dropWhile cIsSpace).reverse.dropWhile cIsSpace).reverse

/-- Split a char list on a separator, keeping empty tokens (the semantics
of boost::algorithm::split with is_any_of and no compression, and of
std::getline over the newline separator up to a trailing empty token that
the parser skips anyway). -/
def splitOnChar (sep : Char) : List Char → List (List Char)
  | [] => [[]]
  | c :: cs =>
    let r := splitOnChar sep cs
    if c = sep then [] :: r
    else
      match r with
      | [] => [[c]]
      | t :: ts => (c :: t) :: ts

/-- The lines std::getline extracts from the property-file contents. -/
def getLines (content : List Char) : List (List Char) :=
  splitOnChar '\n' content

/-- How parse_property_file treats one line: skipped (empty or comment
after trimming), a well-formed key=value entry, or bad format. -/
inductive LineClass where
  | skip
  | entry (key val : List Char)
  | bad
deriving DecidableEq

/-- Per-line processing of parse_property_file: trim the line; skip it if
empty or starting with a hash; split on the equals sign; bad format unless
that yields exactly two parts whose trimmed value is non-empty and whose
trimmed key is an allowed property key. -/
def classifyLine (allowed : List (List Char)) (line : List Char) : LineClass :=
  let l := trimChars line
  if l = [] then .skip
  else if l.head? = some '#' then .skip
  else
    match splitOnChar '=' l with
    | [k, v] =>
      let key := trimChars k
      let val := trimChars v
      if val = [] || !(allowed.contains key) then .bad
      else .entry key val
    | _ => .bad

/-- The errors parse_property_file raises; both are thrown as the single
bad_property_file_error type in the source. -/
inductive PropFileError where
  | badFormat (line : List Char)
  | doubleDeclaration (key : List Char)
deriving DecidableEq

/-- Whether the accumulated property map already contains a key
(_prop_values.contains). -/
def containsKey (m : List (List Char × List Char)) (k : List Char) : Bool :=
  m.any (fun p => p.1 = k)

/-- The line loop of parse_property_file over the remaining lines, with
the properties accumulated so far. -/
def parseLines (allowed : List (List Char)) :
    List (List Char × List Char) → List (List Char) →
      Except PropFileError (List (List Char × List Char))
  | acc, [] => .ok acc
  | acc, line :: rest =>
    match classifyLine allowed line with
    | .skip => parseLines allowed acc rest
    | .bad => .error (.badFormat line)
    | .entry k v =>
      if containsKey acc k then .error (.doubleDeclaration k)
      else parseLines allowed (acc ++ [(k, v)]) rest

/-- Embedding of production_snitch_base::parse_property_file: run the line
loop over the file's lines starting from an empty property map
(_prop_values.clear()). -/
def parse_property_file (allowed : List (List Char)) (content : List Char) :
    Except PropFileError (List (List Char × List Char)) :=
  parseLines allowed [] (getLines content)

/-- The key/value pair a line declares, when it is a well-formed entry. -/
def entryOf (allowed : List (List Char)) (line : List Char) :
    Option (List Char × List Char) :=
  match classifyLine allowed line with
  | .entry k v => some (k, v)
  | _ => none

/-- All key/value pairs declared by the well-formed entry lines of a file,
in order. -/
def entriesOf (allowed : List (List Char)) (lines : List (List Char)) :
    List (List Char × List Char) :=
  lines.filterMap (entryOf allowed)

/-- Whether an Except result is a success. -/
def exceptOk {ε α : Type} : Except ε α → Bool
  | .ok _ => true
  | .error _ => false

/-- Key of the repair-session registry (node_repair_meta_id): the peer
address and the repair meta (session) id. -/
structure NodeRepairMetaId where
  ip : InetAddress
  repair_meta_id : Nat
deriving DecidableEq

/-- Repair session state (repair_meta); its contents are opaque to the
registry claims, abstracted as a natural. -/
abbrev RepairMeta := Nat

/-- The registry of live repair sessions (repair_service::_repair_metas),
as an association list keyed by node_repair_meta_id. -/
abbrev RepairMetaMap := List (NodeRepairMetaId × RepairMeta)

/-- The error a failed registry insert reports (spec: DuplicateSession). -/
inductive RepairError where
  | duplicateSession
deriving DecidableEq

/-- Whether the registry already holds a session for a key. -/
def containsId (rm : RepairMetaMap) (key : NodeRepairMetaId) : Bool :=
  rm.any (fun p => p.1 = key)

/-- Modelled from the spec: the body of repair_service::insert_repair_meta
is absent from the embedded sources (repair/row_level.hh only declares
it).  Per the spec's registry contract, insert(peer, session_id, metadata)
fails with DuplicateSession and leaves the registry unchanged when the
(peer, session id) key already exists, and otherwise stores the session
under that key.  The session attributes beyond the key are abstracted into
the RepairMeta value. -/
def insert_repair_meta (rm : RepairMetaMap) (from_addr : InetAddress)
    (repair_meta_id : Nat) (meta : RepairMeta) : RepairMetaMap × Option RepairError :=
  let key : NodeRepairMetaId := ⟨from_addr, repair_meta_id⟩
  if containsId rm key then (rm, some .duplicateSession)
  else (rm ++ [(key, meta)], none)

/-- Modelled from the spec: the body of the one-argument
repair_service::remove_repair_meta(from) is absent from the embedded
sources.  Per the spec, remove_all(peer) purges every session for the peer
and reports no error. -/
def remove_repair_meta (rm : RepairMetaMap) (from_addr : InetAddress) :
    RepairMetaMap × Option RepairError :=
  (rm.filter (fun p => p.1.ip ≠ from_addr), none)

/-- State of the repair memory budget (repair_service::_memory_sem, a
counting semaphore initialised with max_repair_memory): the available
byte count, plus the list of outstanding acquired amounts (the live
guards), which the conservation claims track explicitly. -/
structure SemState where
  available : Nat
  held : List Nat
deriving DecidableEq

/-- One event against the memory budget.  acquire n is a request for n
bytes: it is granted immediately when n bytes are available, otherwise
the caller stays a blocked waiter holding nothing (which also covers a
waiter that aborts while blocked: it acquired nothing and releases
nothing).  release i is the destruction of the i-th outstanding guard,
returning its exact acquired amount. -/
inductive SemOp where
  | acquire (bytes : Nat)
  | release (idx : Nat)
deriving DecidableEq

/-- Modelled from the spec: the semaphore's wait/signal bodies are
external to the embedded sources.  Per the spec's admission contract,
acquire(bytes) only proceeds when the budget is available and its guard
releases the exact amount on destruction on every exit path. -/
def semStep (s : SemState) : SemOp → SemState
  | .acquire n => if n ≤ s.available then ⟨s.available - n, n :: s.held⟩ else s
  | .release i =>
    match s.held[i]? with
    | some n => ⟨s.available + n, s.held.eraseIdx i⟩
    | none => s

/-- Run a sequence of budget events from the freshly configured semaphore
(available = max_repair_memory, nothing outstanding). -/
def semRun (max_repair_memory : Nat) (ops : List SemOp) : SemState :=
  ops.foldl semStep ⟨max_repair_memory, []⟩

/-- Table identifiers, abstracted as naturals. -/
abbrev TableId := Nat

/-- Token ranges, opaque to the history claims, abstracted as naturals. -/
abbrev TokenRange := Nat

/-- Repair times (gc_clock::time_point), abstracted as naturals. -/
abbrev RepairTimePoint := Nat

/-- The recorded repair-history times: per (table, range) the last
recorded successful repair time, if any. -/
abbrev HistoryMap := TableId → TokenRange → Option RepairTimePoint

/-- Modelled from the spec: the body of repair_service::update_history is
absent from the embedded sources (repair/row_level.hh only declares it,
and the per-round repair_history bookkeeping is opaque here).  Per the
spec, update(repair_round_id, table_id, range, time) records that the
range finished as of the given time, returns the previously recorded time
for idempotent-merge purposes, and resolves concurrent updates for the
same range by keeping the maximum time, never regressing it. -/
def update_history (h : HistoryMap) (_repair_round_id : Nat) (table_id : TableId)
    (range : TokenRange) (repair_time : RepairTimePoint) :
    HistoryMap × Option RepairTimePoint :=
  let prev := h table_id range
  let recorded := match prev with
    | some p => max p repair_time
    | none => repair_time
  (fun tb r => if tb = table_id ∧ r = range then some recorded else h tb r, prev)

/-- Modelled from the spec: the body of
repair_service::get_next_repair_meta_id is absent from the embedded
sources, but repair/row_level.hh declares both the counter field
(uint32_t _next_repair_meta_id = 0, used only on shard 0) and the
future of uint32_t return type.  Per the spec, a call returns the current
counter and advances it; per the declared 32-bit type, the stored counter
advances modulo 2^32 = 4294967296. -/
def get_next_repair_meta_id (next_repair_meta_id : Nat) : Nat × Nat :=
  (next_repair_meta_id, (next_repair_meta_id + 1) % 4294967296)

/-- The shard-0 counter value after n calls starting from c0. -/
def counterAfter (c0 : Nat) : Nat → Nat
  | 0 => c0
  | n + 1 => (get_next_repair_meta_id (counterAfter c0 n)).2

/-- The id returned by the n-th call (0-based) starting from counter c0. -/
def returnedId (c0 : Nat) (n : Nat) : Nat :=
  (get_next_repair_meta_id (counterAfter c0 n)).1

/-- C1: the claim says the fallback endpoint-info lookup terminates with a
bounded resolution depth even when the alias-resolution mapping contains
cycles.  The source has no such guard: in cycleEnv, where the resolver
maps 0 to 1 and 1 to 0 and neither address is known to gossip or the saved
system-table info, the lookup exceeds every resolution-depth bound (for
every fuel the fuelled embedding returns none), for every state key and
every default value. -/
theorem C1_get_endpoint_info_cycle_unbounded (fuel : Nat) (key : AppState) (d : String) :
    get_endpoint_info cycleEnv key d fuel 0 = none ∧
      get_endpoint_info cycleEnv key d fuel 1 = none := by
  induction fuel with
  | zero => exact ⟨rfl, rfl⟩
  | succ n ih =>
    constructor
    · show get_endpoint_info cycleEnv key d (n + 1) 0 = none
      simp only [get_endpoint_info, cycleEnv]
      exact ih.2
    · show get_endpoint_info cycleEnv key d (n + 1) 1 = none
      simp only [get_endpoint_info, cycleEnv]
      exact ih.1

/-- A terminating alias-resolution chain yields a value at some finite
fuel: the chain's depth bounds the recursion. -/
theorem terminates_some (env : SnitchEnv) (key : AppState) (d : String) (ep : InetAddress)
    (h : ResolutionTerminates env key ep) :
    ∃ n v, get_endpoint_info env key d n ep = some v := by
  induction h with
  | gossip ep v hg => exact ⟨1, v, by simp [get_endpoint_info, hg]⟩
  | saved ep info hg hs =>
    cases key with
    | RACK => exact ⟨1, info.rack, by simp [get_endpoint_info, hg, hs]⟩
    | DC => exact ⟨1, info.dc, by simp [get_endpoint_info, hg, hs]⟩
  | fixed ep hg hs hr => exact ⟨1, d, by simp [get_endpoint_info, hg, hs, hr]⟩
  | step ep hg hs hr _ ih =>
    obtain ⟨n, v, hv⟩ := ih
    exact ⟨n + 1, v, by simp [get_endpoint_info, hg, hs, hr, hv]⟩

/-- C10: get_rack and get_datacenter are total given a terminating
alias-resolution chain.  For the node's own broadcast address they return
the configured rack/DC at any fuel, for any gossip, saved-table and
resolver contents (so without consulting them); under a terminating chain
they return some value; and for an endpoint known to none of gossip, the
saved system-table info, or a distinct resolved alias, they return
default_rack / default_dc. -/
theorem C10_get_rack_get_datacenter_total (env : SnitchEnv) (ep : InetAddress) (fuel : Nat) :
    (get_rack env fuel env.broadcast = some env.my_rack
      ∧ get_datacenter env fuel env.broadcast = some env.my_dc)
    ∧ (ResolutionTerminates env .RACK ep → ∃ n v, get_rack env n ep = some v)
    ∧ (ResolutionTerminates env .DC ep → ∃ n v, get_datacenter env n ep = some v)
    ∧ (ep ≠ env.broadcast → env.gossip ep .RACK = none → env.saved ep = none →
        env.resolve ep = ep → 0 < fuel → get_rack env fuel ep = some env.default_rack)
    ∧ (ep ≠ env.broadcast → env.gossip ep .DC = none → env.saved ep = none →
        env.resolve ep = ep → 0 < fuel → get_datacenter env fuel ep = some env.default_dc) := by
  refine ⟨⟨by simp [get_rack], by simp [get_datacenter]⟩, ?_, ?_, ?_, ?_⟩
  · intro h
    by_cases hb : ep = env.broadcast
    · exact ⟨0, env.my_rack, by simp [get_rack, hb]⟩
    · obtain ⟨n, v, hv⟩ := terminates_some env .RACK env.default_rack ep h
      exact ⟨n, v, by simp [get_rack, hb, hv]⟩
  · intro h
    by_cases hb : ep = env.broadcast
    · exact ⟨0, env.my_dc, by simp [get_datacenter, hb]⟩
    · obtain ⟨n, v, hv⟩ := terminates_some env .DC env.default_dc ep h
      exact ⟨n, v, by simp [get_datacenter, hb, hv]⟩
  · intro hb hg hs hr hf
    obtain ⟨m, rfl⟩ := Nat.exists_eq_add_of_lt hf
    simp [get_rack, hb, get_endpoint_info, hg, hs, hr, Nat.add_comm]
  · intro hb hg hs hr hf
    obtain ⟨m, rfl⟩ := Nat.exists_eq_add_of_lt hf
    simp [get_datacenter, hb, get_endpoint_info, hg, hs, hr, Nat.add_comm]

/-- Witness for C10 at a concrete input: endpoint 2 in cycleEnv is not the
broadcast address, is unknown to gossip and the saved info, and resolves
to itself, so get_rack returns the default rack. -/
theorem C10_witness : get_rack cycleEnv 1 2 = some "UNKNOWN_RACK" :=
  (C10_get_rack_get_datacenter_total cycleEnv 2 1).2.2.2.1 (by decide) rfl rfl rfl
    (by decide)

/-- containsKey agrees with membership in the accumulated key list. -/
theorem containsKey_iff (m : List (List Char × List Char)) (k : List Char) :
    containsKey m k = true ↔ k ∈ m.map Prod.fst := by
  simp only [containsKey, List.any_eq_true, decide_eq_true_eq, List.mem_map]

/-- The parser loop succeeds from an accumulator with distinct keys iff no
remaining line is bad and the keys of the accumulator together with the
keys declared by the remaining entry lines are pairwise distinct. -/
theorem parseLines_ok_iff (allowed : List (List Char)) (lines : List (List Char)) :
    ∀ acc : List (List Char × List Char), (acc.map Prod.fst).Nodup →
      (exceptOk (parseLines allowed acc lines) = true ↔
        (∀ l ∈ lines, classifyLine allowed l ≠ .bad)
        ∧ ((acc ++ entriesOf allowed lines).map Prod.fst).Nodup) := by
  induction lines with
  | nil =>
    intro acc hacc
    simp [parseLines, entriesOf, exceptOk, hacc]
  | cons line rest ih =>
    intro acc hacc
    match hc : classifyLine allowed line with
    | .skip =>
      have he : entryOf allowed line = none := by simp [entryOf, hc]
      have hstep : parseLines allowed acc (line :: rest) = parseLines allowed acc rest := by
        simp [parseLines, hc]
      rw [hstep, ih acc hacc]
      simp [List.forall_mem_cons, entriesOf, List.filterMap_cons, he, hc]
    | .bad =>
      simp [parseLines, hc, exceptOk, List.forall_mem_cons]
    | .entry k v =>
      have he : entryOf allowed line = some (k, v) := by simp [entryOf, hc]
      have hE : entriesOf allowed (line :: rest) = (k, v) :: entriesOf allowed rest := by
        simp [entriesOf, List.filterMap_cons, he]
      by_cases hk : containsKey acc k = true
      · have hk' : k ∈ acc.map Prod.fst := (containsKey_iff acc k).mp hk
        constructor
        · intro hok
          simp [parseLines, hc, hk, exceptOk] at hok
        · rintro ⟨-, hnd⟩
          exfalso
          rw [hE, List.map_append] at hnd
          rcases List.nodup_append.mp hnd with ⟨-, -, hdisj⟩
          exact hdisj hk' (by simp)
      · have hstep : parseLines allowed acc (line :: rest)
            = parseLines allowed (acc ++ [(k, v)]) rest := by
          simp [parseLines, hc, hk]
        have hknot : k ∉ acc.map Prod.fst := fun h => hk ((containsKey_iff acc k).mpr h)
        have hacc2 : ((acc ++ [(k, v)]).map Prod.fst).Nodup := by
          rw [List.map_append]
          refine List.nodup_append.mpr ⟨hacc, List.nodup_singleton k, ?_⟩
          intro a ha hak
          rw [List.map_singleton, List.mem_singleton] at hak
          subst hak
          exact hknot ha
        rw [hstep, ih (acc ++ [(k, v)]) hacc2, hE]
        constructor
        · rintro ⟨h1, h2⟩
          refine ⟨?_, ?_⟩
          · intro l hl
            rcases List.mem_cons.mp hl with rfl | hl
            · simp [hc]
            · exact h1 l hl
          · rw [List.append_assoc] at h2
            simpa using h2
        · rintro ⟨h1, h2⟩
          refine ⟨fun l hl => h1 l (List.mem_cons_of_mem _ hl), ?_⟩
          rw [List.append_assoc]
          simpa using h2

/-- On success the parser loop returns the accumulator extended with
exactly the key/value pairs declared by the remaining entry lines. -/
theorem parseLines_ok_eq (allowed : List (List Char)) (lines : List (List Char)) :
    ∀ acc m, parseLines allowed acc lines = .ok m → m = acc ++ entriesOf allowed lines := by
  induction lines with
  | nil =>
    intro acc m h
    simp only [parseLines, Except.ok.injEq] at h
    simp [entriesOf, ← h]
  | cons line rest ih =>
    intro acc m h
    match hc : classifyLine allowed line with
    | .skip =>
      have he : entryOf allowed line = none := by simp [entryOf, hc]
      simp only [parseLines, hc] at h
      rw [ih acc m h]
      simp [entriesOf, List.filterMap_cons, he]
    | .bad =>
      simp [parseLines, hc] at h
    | .entry k v =>
      have he : entryOf allowed line = some (k, v) := by simp [entryOf, hc]
      by_cases hk : containsKey acc k = true
      · simp [parseLines, hc, hk] at h
      · simp only [parseLines, hc, hk, if_neg, Bool.false_eq_true, if_false] at h
        rw [ih (acc ++ [(k, v)]) m h]
        simp [entriesOf, List.filterMap_cons, he]

/-- C7: parse_property_file fails with a bad-property-file error exactly
when some line is bad (after trimming it is non-empty, is not a comment,
and fails to split on the equals sign into exactly one key and one
non-empty value with the key among the allowed property keys) or some key
is declared by two entry lines; and on a well-formed file the stored
property map is exactly the declared key/value pairs, nothing else. -/
theorem C7_parse_property_file_correct (allowed : List (List Char)) (content : List Char) :
    (exceptOk (parse_property_file allowed content) = true ↔
      (∀ l ∈ getLines content, classifyLine allowed l ≠ .bad)
      ∧ ((entriesOf allowed (getLines content)).map Prod.fst).Nodup)
    ∧ (∀ m, parse_property_file allowed content = .ok m →
        m = entriesOf allowed (getLines content)) := by
  constructor
  · have h := parseLines_ok_iff allowed (getLines content) [] (by simp)
    simpa [parse_property_file] using h
  · intro m hm
    simpa using parseLines_ok_eq allowed (getLines content) [] m hm

/-- The allowed property keys used in the C7 witness. -/
def witnessAllowed : List (List Char) := [['d', 'c'], ['r', 'a', 'c', 'k']]

/-- The property-file contents used in the C7 witness: a padded dc entry,
a comment line and a blank line. -/
def witnessContent : List Char :=
  [' ', 'd', 'c', ' ', '=', ' ', 'v', '1', ' ', '\n', '#', ' ', 'n', '\n', '\n']

/-- Witness for C7 at a concrete input: the parser accepts the file and
stores exactly the one declared pair. -/
theorem C7_witness :
    [(['d', 'c'], ['v', '1'])] = entriesOf witnessAllowed (getLines witnessContent) :=
  (C7_parse_property_file_correct witnessAllowed witnessContent).2
    [(['d', 'c'], ['v', '1'])] rfl

/-- C2: the preferred-IP update handler is idempotent under replay.
Running reconnect twice in succession, from any shard and any state,
leaves the system table, every shard's preferred-IP cache and the open RPC
connections exactly as running it once: the first effectful run caches the
preferred IP on the calling shard, so the replay's guard sees the cached
value equal to the local address and the replay is a no-op. -/
theorem C2_reconnect_idempotent (env : ReconnectEnv) (cs : Nat) (st : NodeState)
    (p l : InetAddress) :
    (reconnect env cs (reconnect env cs st p l).1 p l).1 = (reconnect env cs st p l).1 := by
  by_cases h : env.dcOf p = env.local_dc ∧ get_preferred_ip st cs p ≠ l
  · have h2 : ¬ (env.dcOf p = env.local_dc ∧
        get_preferred_ip (applyPreferredIpUpdate st p l) cs p ≠ l) := by
      simp [get_preferred_ip, applyPreferredIpUpdate]
    simp [reconnect, if_pos h, if_neg h2]
  · simp [reconnect, if_neg h]

/-- C8: when the preferred-IP update handler applies a change, the system
table write is the first emitted effect and precedes every per-shard cache
invalidation (the rest of the trace is exactly the shard updates), and the
handler's final state reflects the fan-out completed and awaited on every
shard: each shard's cache holds the new preferred IP and its RPC client
for the public address is closed. -/
theorem C8_reconnect_persist_before_fanout (env : ReconnectEnv) (cs : Nat) (st : NodeState)
    (p l : InetAddress) (hdc : env.dcOf p = env.local_dc)
    (hip : get_preferred_ip st cs p ≠ l) :
    ∃ rest,
      (reconnect env cs st p l).2 = ReconnectAction.persistPreferredIp p l :: rest
      ∧ (∀ s, s < st.nshards → ReconnectAction.updateShard s p l ∈ rest)
      ∧ (∀ a, a ∈ rest → ∃ s, a = ReconnectAction.updateShard s p l)
      ∧ (reconnect env cs st p l).1.systemTable p = some l
      ∧ (∀ s, (reconnect env cs st p l).1.cache s p = some l)
      ∧ (∀ s, (reconnect env cs st p l).1.rpcOpen s p = false) := by
  have h : env.dcOf p = env.local_dc ∧ get_preferred_ip st cs p ≠ l := ⟨hdc, hip⟩
  refine ⟨(List.range st.nshards).map (fun s => ReconnectAction.updateShard s p l),
    ?_, ?_, ?_, ?_, ?_, ?_⟩
  · simp [reconnect, if_pos h]
  · intro s hs
    simp only [List.mem_map]
    exact ⟨s, List.mem_range.mpr hs, rfl⟩
  · intro a ha
    obtain ⟨s, _, rfl⟩ := List.mem_map.mp ha
    exact ⟨s, rfl⟩
  · simp [reconnect, if_pos h, applyPreferredIpUpdate]
  · intro s
    simp [reconnect, if_pos h, applyPreferredIpUpdate]
  · intro s
    simp [reconnect, if_pos h, applyPreferredIpUpdate]

/-- The concrete node state used to witness C8: one shard, empty system
table, empty caches, and an open RPC connection to every address. -/
def witnessNodeState : NodeState where
  nshards := 1
  systemTable := fun _ => none
  cache := fun _ _ => none
  rpcOpen := fun _ _ => true

/-- The concrete environment used to witness C8: every address is in the
local DC. -/
def witnessReconnectEnv : ReconnectEnv where
  dcOf := fun _ => "dc1"
  local_dc := "dc1"

/-- Witness for C8 at a concrete input: public address 5, local address 7,
calling shard 0, one shard; the system table holds the new mapping after
the handler runs. -/
theorem C8_witness :
    (reconnect witnessReconnectEnv 0 witnessNodeState 5 7).1.systemTable 5 = some 7 :=
  (C8_reconnect_persist_before_fanout witnessReconnectEnv 0 witnessNodeState 5 7 rfl
    (by decide)).choose_spec.2.2.2.1

/-- C3: at most one live repair session exists per (peer, session id) key.
An insert for a key already in the repair-meta map reports
DuplicateSession and leaves the registry unchanged; and of two insert
attempts for the same absent key (the serialization of two concurrent
attempts on the owning shard), the first succeeds and the second observes
DuplicateSession with the registry left as the first attempt made it. -/
theorem C3_insert_repair_meta_at_most_one (rm : RepairMetaMap) (from_addr : InetAddress)
    (id : Nat) (m1 m2 : RepairMeta) :
    (containsId rm ⟨from_addr, id⟩ = true →
      insert_repair_meta rm from_addr id m1 = (rm, some .duplicateSession))
    ∧ (containsId rm ⟨from_addr, id⟩ = false →
        (insert_repair_meta rm from_addr id m1).2 = none
        ∧ insert_repair_meta (insert_repair_meta rm from_addr id m1).1 from_addr id m2
            = ((insert_repair_meta rm from_addr id m1).1, some .duplicateSession)) := by
  constructor
  · intro h
    simp [insert_repair_meta, h]
  · intro h
    refine ⟨by simp [insert_repair_meta, h], ?_⟩
    have hkey : containsId (rm ++ [(⟨from_addr, id⟩, m1)]) ⟨from_addr, id⟩ = true := by
      simp [containsId]
    simp [insert_repair_meta, h, hkey]

/-- Witness for C3 at a concrete input: inserting session (peer 1, id 2)
twice into the empty registry makes the second attempt observe
DuplicateSession and leave the registry as the first attempt made it. -/
theorem C3_witness :
    (insert_repair_meta [] 1 2 7).2 = none
    ∧ insert_repair_meta (insert_repair_meta [] 1 2 7).1 1 2 8
        = ((insert_repair_meta [] 1 2 7).1, some .duplicateSession) :=
  (C3_insert_repair_meta_at_most_one [] 1 2 7 8).2 rfl

/-- C9: remove_all(peer) is idempotent: the second call returns the same
registry as the first call produced and reports no error (a no-op). -/
theorem C9_remove_repair_meta_idempotent (rm : RepairMetaMap) (from_addr : InetAddress) :
    remove_repair_meta (remove_repair_meta rm from_addr).1 from_addr
      = remove_repair_meta rm from_addr
    ∧ (remove_repair_meta (remove_repair_meta rm from_addr).1 from_addr).2 = none := by
  refine ⟨?_, rfl⟩
  simp only [remove_repair_meta, List.filter_filter, Prod.mk.injEq, and_true]
  exact List.filter_congr (fun a _ => Bool.and_self _)

/-- Sum of a list after erasing the element at a valid index: the erased
element's value accounts for the difference. -/
theorem sum_eraseIdx (l : List Nat) : ∀ i n, l[i]? = some n →
    (l.eraseIdx i).sum + n = l.sum := by
  induction l with
  | nil =>
    intro i n h
    simp at h
  | cons a t ih =>
    intro i n h
    cases i with
    | zero =>
      simp only [List.getElem?_cons_zero, Option.some.injEq] at h
      subst h
      simp [List.eraseIdx]
      omega
    | succ j =>
      simp only [List.getElem?_cons_succ] at h
      have := ih j n h
      simp [List.eraseIdx]
      omega

/-- Conservation for the memory budget: after any event sequence, the
available budget plus the outstanding acquired bytes equals the configured
maximum. -/
theorem semRun_conservation (maxmem : Nat) (ops : List SemOp) :
    (semRun maxmem ops).available + (semRun maxmem ops).held.sum = maxmem := by
  suffices h : ∀ (ops : List SemOp) (s : SemState), s.available + s.held.sum = maxmem →
      (ops.foldl semStep s).available + (ops.foldl semStep s).held.sum = maxmem by
    exact h ops ⟨maxmem, []⟩ (by simp)
  intro ops
  induction ops with
  | nil =>
    intro s hs
    simpa using hs
  | cons op rest ih =>
    intro s hs
    simp only [List.foldl_cons]
    apply ih
    cases op with
    | acquire n =>
      by_cases hn : n ≤ s.available
      · simp only [semStep, if_pos hn, List.sum_cons]
        omega
      · simpa [semStep, if_neg hn] using hs
    | release i =>
      cases hgi : s.held[i]? with
      | none => simpa [semStep, hgi] using hs
      | some n =>
        have hsum := sum_eraseIdx s.held i n hgi
        simp only [semStep, hgi]
        omega

/-- C4: memory budget conservation.  For every sequence of acquire and
release events against the repair memory budget, including waiters that
abort while blocked (they hold nothing), the sum of outstanding acquired
bytes never exceeds max_repair_memory, and once nothing is outstanding
the available budget equals the configured maximum again. -/
theorem C4_memory_budget_conservation (maxmem : Nat) (ops : List SemOp) :
    (semRun maxmem ops).held.sum ≤ maxmem
    ∧ ((semRun maxmem ops).held = [] → (semRun maxmem ops).available = maxmem) := by
  have h := semRun_conservation maxmem ops
  constructor
  · omega
  · intro he
    rw [he] at h
    simpa using h

/-- Witness for C4 at a concrete input: acquire 3 of 5 bytes then release
that guard; nothing is outstanding and the budget is back to 5. -/
theorem C4_witness : (semRun 5 [SemOp.acquire 3, SemOp.release 0]).available = 5 :=
  (C4_memory_budget_conservation 5 [SemOp.acquire 3, SemOp.release 0]).2 rfl

/-- C5: the recorded repair time is monotonic per (table, range).  An
update returns the previously recorded time, always leaves a recorded
time in place, never records less than either the previous time or the
new time, and two updates for the same range from different rounds
commute, resolving to the maximum. -/
theorem C5_update_history_monotonic (h : HistoryMap) (rid rid2 : Nat) (tb : TableId)
    (r : TokenRange) (t1 t2 : RepairTimePoint) :
    ((update_history h rid tb r t1).2 = h tb r)
    ∧ ((update_history h rid tb r t1).1 tb r).isSome = true
    ∧ (∀ p q, h tb r = some p → (update_history h rid tb r t1).1 tb r = some q →
        p ≤ q ∧ t1 ≤ q)
    ∧ ((update_history (update_history h rid tb r t1).1 rid2 tb r t2).1 tb r
        = (update_history (update_history h rid2 tb r t2).1 rid tb r t1).1 tb r) := by
  refine ⟨rfl, ?_, ?_, ?_⟩
  · cases hp : h tb r <;> simp [update_history, hp]
  · intro p q hp hq
    have hq' : max p t1 = q := by simpa [update_history, hp] using hq
    subst hq'
    exact ⟨le_max_left _ _, le_max_right _ _⟩
  · cases hp : h tb r with
    | none => simp [update_history, hp, Nat.max_comm]
    | some p => simp [update_history, hp, sup_right_comm]

/-- Witness for C5 at a concrete input: updating a range recorded at time
4 with time 9 records a time at least 4 and at least 9. -/
theorem C5_witness : 4 ≤ 9 ∧ 9 ≤ 9 :=
  (C5_update_history_monotonic (fun _ _ => some 4) 0 0 1 2 9 9).2.2.1 4 9 rfl
    (by simp [update_history])

/-- From the declared initial counter value 0, the counter after n calls
is the call count modulo 2^32. -/
theorem counterAfter_zero (n : Nat) : counterAfter 0 n = n % 4294967296 := by
  induction n with
  | zero => rfl
  | succ m ih =>
    simp only [counterAfter, get_next_repair_meta_id, ih]
    omega

/-- Counterexample to C6 as stated: the counter and the return type are
declared uint32_t, so after 2^32 allocations the counter wraps; call
number 2^32 of a node's lifetime (counting from the declared initial
value 0) returns the same id as call number 0, although it is a strictly
later call. -/
theorem C6_counterexample :
    (0 : Nat) < 4294967296 ∧ returnedId 0 4294967296 = returnedId 0 0 := by
  refine ⟨by norm_num, ?_⟩
  simp only [returnedId, get_next_repair_meta_id, counterAfter_zero]

/-- C6 amended: repair session ids come from the shard-0 counter, which
increases modulo 2^32 (its declared uint32_t width): among the first 2^32
calls of a node's lifetime, a later call returns a strictly greater id
than any earlier one, so no two such calls return the same id; after 2^32
allocations the counter wraps and ids repeat. -/
theorem C6_repair_meta_id_monotonic (n m : Nat) (h : n < m) (hm : m < 4294967296) :
    returnedId 0 n < returnedId 0 m ∧ returnedId 0 n ≠ returnedId 0 m := by
  have key : ∀ k, k < 4294967296 → returnedId 0 k = k := by
    intro k hk
    simp only [returnedId, get_next_repair_meta_id, counterAfter_zero]
    omega
  rw [key n (lt_trans h hm), key m hm]
  exact ⟨h, Nat.ne_of_lt h⟩

/-- Witness for C6 at a concrete input: from a fresh counter, the second
call's id is strictly greater than the first call's. -/
theorem C6_witness : returnedId 0 0 < returnedId 0 1 ∧ returnedId 0 0 ≠ returnedId 0 1 :=
  C6_repair_meta_id_monotonic 0 1 (by norm_num) (by norm_num)

end ScyllaSpec
